import Mathlib

/-!
# Verification of the stock-balance monitor's comparison engine

A shallow embedding of the pure core of `monitor_combined.py`: the tabular
comparators (`detect_stock_changes`, `detect_parts_changes`), the scalar
difference comparators, the reconciliation calculator
(`calculate_total_pieces`, `calculate_current_differences`,
`get_inventory_balance`), the pickle-backed state store
(`load_previous_state` / `save_current_state`), and the state-update flow of
`main`.  Sheet cells are modelled as `String`, Python numbers as exact
rationals (`ℚ`) or integers (`ℤ`), and each persisted file as an `Option`
of its stored content.  Python exceptions are modelled with `Except` where
a function can raise, and the one comparator whose body is guarded by a
broad catch-all handler takes its body's outcome as an explicit parameter.
-/

set_option autoImplicit false

namespace Monitor

/-- Python's `str.strip()` (restricted to ASCII whitespace): drop leading and
trailing whitespace characters. -/
def pyStrip (s : String) : String :=
  ⟨((s.data.dropWhile Char.isWhitespace).reverse.dropWhile Char.isWhitespace).reverse⟩

/-- Python's `str.lower()` (restricted to ASCII letters). -/
def pyLower (s : String) : String :=
  ⟨s.data.map Char.toLower⟩

/-- Python's `str.replace(',', '')`: remove every comma. -/
def stripCommas (s : String) : String :=
  ⟨s.data.filter (fun c => c != ',')⟩

/-- Python's `str.isdigit()` (restricted to ASCII digits): non-empty and all
characters are decimal digits. -/
def pyIsdigit (s : String) : Bool :=
  !s.data.isEmpty && s.data.all Char.isDigit

/-- Numeric value of a list of decimal digit characters. -/
def digitsVal (l : List Char) : ℕ :=
  l.foldl (fun n c => 10 * n + (c.toNat - 48)) 0

/-- Split a character list into its longest digit run and the remainder
(`List.span Char.isDigit`, given its own recursion for easy reasoning). -/
def spanDigits : List Char → List Char × List Char
  | [] => ([], [])
  | c :: r =>
    if c.isDigit then
      let p := spanDigits r
      (c :: p.1, p.2)
    else ([], c :: r)

/-- Python `float()` on an unsigned numeral: digits, optionally followed by a
dot and more digits, with at least one digit overall.  Returns the exact
rational value; any other character (for example a thousands separator)
raises `ValueError`, modelled as `none`. -/
def parseUnsigned (l : List Char) : Option ℚ :=
  match (spanDigits l).1, (spanDigits l).2 with
  | ip, [] => if ip.isEmpty then none else some (digitsVal ip : ℚ)
  | ip, c :: fp =>
    if c = '.' then
      if fp.all Char.isDigit && !(ip.isEmpty && fp.isEmpty) then
        some ((digitsVal ip : ℚ) + (digitsVal fp : ℚ) / (10 : ℚ) ^ fp.length)
      else none
    else none

/-- Python `float()` on a stripped character list: an optional sign followed
by an unsigned numeral. -/
def parseSigned (l : List Char) : Option ℚ :=
  match l with
  | [] => none
  | c :: r =>
    if c = '-' then (parseUnsigned r).map Neg.neg
    else if c = '+' then parseUnsigned r
    else parseUnsigned (c :: r)

/-- Python `float(s)` for plain decimal numerals: strip whitespace, then parse
a signed numeral; `none` models `ValueError`.  (Exponents, underscores and
`inf`/`nan` spellings are outside the fragment the program feeds to
`float`.) -/
def parseFloat? (s : String) : Option ℚ :=
  parseSigned (pyStrip s).data

/-- Python `int()` applied to a float: truncation toward zero. -/
def truncRat (q : ℚ) : ℤ :=
  if 0 ≤ q then ⌊q⌋ else -⌊-q⌋

/-- A detected change: `(header label, old value, new value)` as appended by
both tabular comparators. -/
abbrev CellChange := String × String × String

/-- A tabular snapshot: list of rows, each a list of string cells. -/
abbrev Snap := List (List String)

/-- The comparison loops of `detect_stock_changes` (lines 156-163) and
`detect_parts_changes` (lines 220-231): walk the three aligned lists and
emit one change per position whose values differ after `str(...).strip()`.
When any list runs out the remaining indices are skipped (the parts loop's
explicit bounds check; the stock loop has equal lengths by then). -/
def diffTriples : List String → List String → List String → List CellChange
  | h :: hs, p :: ps, c :: cs =>
    (if pyStrip p = pyStrip c then [] else [(h, p, c)]) ++ diffTriples hs ps cs
  | _, _, _ => []

/-- A pickled scalar blob as `load_previous_state` / `save_current_state` see
it: a number, Python `None`, or any other object (which fails the
`isinstance` validation). -/
inductive PyBlob (α : Type) where
  | val (a : α)
  | pyNone
  | invalid
deriving DecidableEq, Repr

/-- Embed the current run's optional derived difference into the pickled
value `main` passes to `save_current_state`. -/
def blobOfOpt {α : Type} : Option α → PyBlob α
  | some a => .val a
  | none => .pyNone

/-- `save_current_state` for the two tabular state files: the write is
silently skipped unless the snapshot is truthy with at least 2 rows
(lines 116-121); otherwise the file is overwritten. -/
def save_current_state_tabular (state : Snap) (file : Option Snap) : Option Snap :=
  if state.length < 2 then file else some state

/-- `load_previous_state` for the two tabular state files: a missing file or
a blob with fewer than 2 rows yields "no baseline" (lines 94-99). -/
def load_previous_state_tabular (file : Option Snap) : Option Snap :=
  match file with
  | none => none
  | some d => if d.length < 2 then none else some d

/-- `save_current_state` for the two difference state files: any number and
also `None` pass the `isinstance`-or-`None` validation and are written;
only a non-numeric non-`None` object is skipped (lines 111-115). -/
def save_current_state_diff {α : Type} (state : PyBlob α) (file : Option (PyBlob α)) :
    Option (PyBlob α) :=
  match state with
  | .invalid => file
  | s => some s

/-- `load_previous_state` for the two difference state files: missing file,
stored `None`, or invalid object all yield "no baseline" (lines 89-93). -/
def load_previous_state_diff {α : Type} (file : Option (PyBlob α)) : Option α :=
  match file with
  | none => none
  | some (.val a) => some a
  | some .pyNone => none
  | some .invalid => none

/-- `detect_stock_changes` (lines 133-172), including its effect on the stock
state file.  `previous` falsy yields no changes; a missing row-1 in either
snapshot raises (`IndexError` wrapped into `APIError`, modelled as
`Except.error`); a length mismatch between previous row, current row and
headers saves the current snapshot as the new baseline and yields no
changes; otherwise the positional comparison runs. -/
def detect_stock_changes (previous current : Snap) (file : Option Snap) :
    Except String (List CellChange) × Option Snap :=
  if previous.isEmpty then (.ok [], file)
  else if previous.length < 2 ∨ current.length < 2 then (.error "APIError", file)
  else
    let prev_row := previous.getD 1 []
    let curr_row := current.getD 1 []
    let headers := current.getD 0 []
    if prev_row.length ≠ curr_row.length ∨ headers.length ≠ curr_row.length then
      (.ok [], save_current_state_tabular current file)
    else
      (.ok (diffTriples headers prev_row curr_row), file)

/-- Row 0 of a parts snapshot with the label column dropped, guarded exactly
as `detect_parts_changes` lines 183-185. -/
def headerVals (d : Snap) : List String :=
  if 0 < d.length ∧ 1 < (d.getD 0 []).length then (d.getD 0 []).drop 1 else []

/-- Row 1 of a parts snapshot with the label column dropped, guarded exactly
as `detect_parts_changes` lines 188-195. -/
def row1Vals (d : Snap) : List String :=
  if 1 < d.length ∧ 1 < (d.getD 1 []).length then (d.getD 1 []).drop 1 else []

/-- The length-normalisation of `detect_parts_changes` lines 198-215: trim
headers and current values to their common length on mismatch (trimming the
previous values only when longer than that length), then pad the previous
values with empty strings or trim them to the current values' length. -/
def alignLists (ph pv cv : List String) : List String × List String × List String :=
  let n := min ph.length cv.length
  let ph2 := if ph.length ≠ cv.length then ph.take n else ph
  let cv2 := if ph.length ≠ cv.length then cv.take n else cv
  let pv2 := if ph.length ≠ cv.length then (if n < pv.length then pv.take n else pv) else pv
  let pv3 :=
    if pv2.length < cv2.length then pv2 ++ List.replicate (cv2.length - pv2.length) ""
    else if cv2.length < pv2.length then pv2.take cv2.length
    else pv2
  (ph2, pv3, cv2)

/-- The `try`-body of `detect_parts_changes` (lines 180-239): extract the
named columns, normalise lengths, and run the comparison loop. -/
def parts_body (previous current : Snap) : List CellChange :=
  let a := alignLists (headerVals current) (row1Vals previous) (row1Vals current)
  diffTriples a.1 a.2.1 a.2.2

/-- `detect_parts_changes` (lines 174-247) with its state-file effect and its
catch-all handler made explicit: `body` is the outcome of the `try`-body
(an `Except.error` models any unexpected exception inside it).  On a falsy
`previous` the body never runs; on an exception the current snapshot is
saved as the new parts baseline and no changes are returned — an exception
is never propagated to the caller. -/
def detect_parts_changes_run (previous current : Snap) (file : Option Snap)
    (body : Except String (List CellChange)) : List CellChange × Option Snap :=
  if previous.isEmpty then ([], file)
  else
    match body with
    | .ok cs => (cs, file)
    | .error _ => ([], save_current_state_tabular current file)

/-- `detect_parts_changes` as a pure value: in the typed embedding the
`try`-body is total, so the handler's error branch is not taken. -/
def detect_parts_changes (previous current : Snap) : List CellChange :=
  (detect_parts_changes_run previous current none (.ok (parts_body previous current))).1

/-- `detect_chicken_difference_changes` (lines 249-271): exact equality on
the stored integer difference. -/
def detect_chicken_difference_changes (p c : Option ℤ) : List (String × ℤ × ℤ) :=
  match p with
  | none => []
  | some pv =>
    match c with
    | none => []
    | some cv =>
      if pv ≠ cv then [("Whole Chicken Balance Difference", pv, cv)] else []

/-- `detect_gizzard_difference_changes` (lines 273-297): tolerance comparison
`abs(prev - curr) >= 0.01` on the stored difference. -/
def detect_gizzard_difference_changes (p c : Option ℚ) : List (String × ℚ × ℚ) :=
  match p with
  | none => []
  | some pv =>
    match c with
    | none => []
    | some cv =>
      if 1 / 100 ≤ |pv - cv| then [("Gizzard Balance Difference", pv, cv)] else []

/-- Header exclusion of `calculate_total_pieces` line 434: the label column,
the weight column and the running-total column, case-insensitively. -/
def excludedHeader (h : String) : Bool :=
  pyLower h == "specification" || pyLower h == "gizzard" || pyLower h == "total"

/-- The value gate of `calculate_total_pieces` line 437:
`str(val).strip().replace(',', '').isdigit()`. -/
def digitGate (v : String) : Bool :=
  pyIsdigit (stripCommas (pyStrip v))

/-- One column's contribution in `calculate_total_pieces` lines 435-440: if
the gate passes, `int(float(val))` is attempted; `float` raising
`ValueError` (for example on a comma) is caught by the inner handler and
contributes nothing. -/
def pieceContrib (v : String) : ℕ :=
  if digitGate v then
    match parseFloat? v with
    | some q => (truncRat q).toNat
    | none => 0
  else 0

/-- The summation loop of `calculate_total_pieces` lines 432-440.  A
non-excluded header whose value index is out of range raises `IndexError`,
which the inner `(ValueError, TypeError)` handler does not catch; the outer
handler then makes the whole calculation return `None`. -/
def totalPiecesGo : List String → List String → Option ℕ
  | [], _ => some 0
  | h :: hs, vs =>
    if excludedHeader h then totalPiecesGo hs (vs.drop 1)
    else
      match vs with
      | [] => none
      | v :: vs' =>
        match totalPiecesGo hs vs' with
        | some t => some (pieceContrib v + t)
        | none => none

/-- `calculate_total_pieces` (lines 425-444): `None` when the snapshot lacks
a header or value row. -/
def calculate_total_pieces (stock : Snap) : Option ℕ :=
  if stock.length < 2 then none
  else totalPiecesGo (stock.getD 0 []) (stock.getD 1 [])

/-- First index in a list satisfying a predicate (Python's search loop over
headers in `calculate_current_differences` lines 461-468). -/
def listFindIdx (p : String → Bool) : List String → Option ℕ
  | [] => none
  | x :: xs => if p x then some 0 else (listFindIdx p xs).map (· + 1)

/-- The gizzard-weight extraction of `calculate_current_differences` lines
458-468: the first column whose header lowercases to `gizzard`; a
non-numeric value falls back to `0`; an out-of-range value index raises
(`none`), and no matching header leaves the weight at `0`. -/
def findGizzardWeight (headers values : List String) : Option ℚ :=
  match listFindIdx (fun h => pyLower h == "gizzard") headers with
  | none => some 0
  | some i =>
    if i < values.length then some ((parseFloat? (values.getD i "")).getD 0)
    else none

/-- `calculate_current_differences` (lines 446-476): the pair of derived
differences; any uncaught exception inside yields `(None, None)`. -/
def calculate_current_differences (stock : Snap) (inv giz : Option ℚ) :
    Option ℤ × Option ℚ :=
  if stock.length < 2 then (none, none)
  else
    let headers := stock.getD 0 []
    let values := stock.getD 1 []
    let wcd : Option ℤ :=
      match calculate_total_pieces stock, inv with
      | some t, some b => some (truncRat ((t : ℚ) - b))
      | _, _ => none
    match findGizzardWeight headers values with
    | none => (none, none)
    | some w =>
      (wcd, if 0 < w ∧ giz.isSome then some (w - giz.getD 0) else none)

/-- Python `list.index` (lines 319-320): index of the first occurrence, or an
exception (`none`) when absent. -/
def listIndexOf (a : String) : List String → Option ℕ
  | [] => none
  | x :: xs => if x = a then some 0 else (listIndexOf a xs).map (· + 1)

/-- Python's `<` on strings, on the underlying character lists: lexicographic
comparison of code points. -/
def charListLt : List Char → List Char → Bool
  | [], [] => false
  | [], _ :: _ => true
  | _ :: _, [] => false
  | a :: as, b :: bs =>
    if a.toNat < b.toNat then true
    else if b.toNat < a.toNat then false
    else charListLt as bs

/-- Python's `<` on strings. -/
def pyStrLt (s t : String) : Bool :=
  charListLt s.data t.data

/-- The sort key of `get_inventory_balance` line 342: the `year_month` cell
when present, else the empty string. -/
def keyOf (ycol : ℕ) (row : List String) : String :=
  if ycol < row.length then row.getD ycol "" else ""

/-- Head of Python's stable descending sort (lines 341-345): the first
element attaining the maximal key. -/
def argmaxKey (key : List String → String) : List (List String) → Option (List String)
  | [] => none
  | x :: xs => some (xs.foldl (fun best y => if pyStrLt (key best) (key y) then y else best) x)

/-- `get_inventory_balance` (lines 299-360) from the fetched table onward:
locate the two columns by name, select the current month's row or fall back
to the most recent `year_month`, and parse the balance cell. -/
def get_inventory_balance_core (data : Snap) (current_year_month : String) : Option ℚ :=
  if data.length < 2 then none
  else
    let headers := data.getD 0 []
    match listIndexOf "whole_chicken_quantity_stock_balance" headers,
        listIndexOf "year_month" headers with
    | some bcol, some ycol =>
      let data_rows := data.drop 1
      let found := data_rows.find?
        (fun row => decide (ycol < row.length) && (row.getD ycol "" == current_year_month))
      let chosen :=
        match found with
        | some r => some r
        | none => argmaxKey (keyOf ycol) data_rows
      match chosen with
      | none => none
      | some row => if bcol < row.length then parseFloat? (row.getD bcol "") else none
    | _, _ => none

/-- Spec-side predicate for the amended total-pieces claim: the value is a
non-empty string of decimal digits once surrounding whitespace is stripped
(no thousands separators, no decimal point). -/
def strictDigits (v : String) : Bool :=
  !(pyStrip v).data.isEmpty && (pyStrip v).data.all Char.isDigit

/-- The four persisted state files (lines 36-39), each `none` when absent. -/
structure Store where
  stockFile : Option Snap
  partsFile : Option Snap
  chickenFile : Option (PyBlob ℤ)
  gizzardFile : Option (PyBlob ℚ)
deriving DecidableEq, Repr

/-- `main` (lines 732-828) from the point where all fetches have succeeded:
load the four previous states, compute the current differences, run the four
comparators, decide whether an alert is attempted, and persist all four
current states.  `sendOk` is the webhook's success; `partsExc` injects an
unexpected exception into the parts comparison's `try`-body (`none` runs the
body normally).  A raised `APIError` from the stock comparison is caught at
the bottom of `main`, skipping every save.  Returns the new store and
whether an alert was delivered. -/
def main_run (stock_data parts_data : Snap) (inv giz : Option ℚ) (sendOk : Bool)
    (partsExc : Option String) (s : Store) : Store × Bool :=
  let cur := calculate_current_differences stock_data inv giz
  let stockStep :=
    match load_previous_state_tabular s.stockFile with
    | none => ((.ok [] : Except String (List CellChange)), s.stockFile)
    | some pd => detect_stock_changes pd stock_data s.stockFile
  match stockStep with
  | (.error _, f) => ({ s with stockFile := f }, false)
  | (.ok stock_changes, stockFile1) =>
    let partsStep :=
      match load_previous_state_tabular s.partsFile with
      | none => ([], s.partsFile)
      | some pd =>
        detect_parts_changes_run pd parts_data s.partsFile
          (match partsExc with
           | some e => .error e
           | none => .ok (parts_body pd parts_data))
    let chicken_changes :=
      match load_previous_state_diff s.chickenFile with
      | none => []
      | some p => detect_chicken_difference_changes (some p) cur.1
    let gizzard_changes :=
      match load_previous_state_diff s.gizzardFile with
      | none => []
      | some p => detect_gizzard_difference_changes (some p) cur.2
    let anyChanges := !stock_changes.isEmpty || !partsStep.1.isEmpty ||
      !chicken_changes.isEmpty || !gizzard_changes.isEmpty
    ({ stockFile := save_current_state_tabular stock_data stockFile1
       partsFile := save_current_state_tabular parts_data partsStep.2
       chickenFile := save_current_state_diff (blobOfOpt cur.1) s.chickenFile
       gizzardFile := save_current_state_diff (blobOfOpt cur.2) s.gizzardFile },
     anyChanges && sendOk)

/-! ## Helper lemmas -/

theorem diffTriples_self (hs : List String) : ∀ ps : List String, diffTriples hs ps ps = [] := by
  induction hs with
  | nil => intro ps; cases ps <;> rfl
  | cons h hs ih =>
    intro ps
    cases ps with
    | nil => rfl
    | cons p ps => simp [diffTriples, ih]

theorem diffTriples_eq_filter (hs : List String) :
    ∀ ps cs : List String,
      diffTriples hs ps cs =
        ((hs.zip (ps.zip cs)).filter (fun x => !(pyStrip x.2.1 == pyStrip x.2.2))).map
          (fun x => (x.1, x.2.1, x.2.2)) := by
  induction hs with
  | nil => intro ps cs; cases ps <;> cases cs <;> rfl
  | cons h hs ih =>
    intro ps cs
    cases ps with
    | nil => cases cs <;> rfl
    | cons p ps =>
      cases cs with
      | nil => rfl
      | cons c cs =>
        by_cases hpc : pyStrip p = pyStrip c
        · have hbeq : (pyStrip p == pyStrip c) = true := beq_iff_eq.mpr hpc
          simp [diffTriples, hpc, hbeq, ih]
        · have hbeq : (pyStrip p == pyStrip c) = false := beq_eq_false_iff_ne.mpr hpc
          simp [diffTriples, hpc, hbeq, ih]

theorem diffTriples_append_of_strip_eq :
    ∀ (ps cs1 hs1 hs2 qs cs2 : List String),
      hs1.length = ps.length → ps.map pyStrip = cs1.map pyStrip →
      diffTriples (hs1 ++ hs2) (ps ++ qs) (cs1 ++ cs2) = diffTriples hs2 qs cs2 := by
  intro ps
  induction ps with
  | nil =>
    intro cs1 hs1 hs2 qs cs2 h1 h2
    have hh : hs1 = [] := by
      cases hs1 with
      | nil => rfl
      | cons a b => simp at h1
    have hc : cs1 = [] := by
      cases cs1 with
      | nil => rfl
      | cons a b => simp at h2
    simp [hh, hc]
  | cons p ps ih =>
    intro cs1 hs1 hs2 qs cs2 h1 h2
    cases hs1 with
    | nil => simp at h1
    | cons h hs1 =>
      cases cs1 with
      | nil => simp at h2
      | cons c cs1 =>
        simp only [List.map_cons, List.cons.injEq] at h2
        simp only [List.length_cons, Nat.succ.injEq] at h1
        simp [diffTriples, h2.1, ih cs1 hs1 hs2 qs cs2 h1 h2.2]

theorem diffTriples_replicate_empty :
    ∀ (hs cs : List String), hs.length = cs.length →
      (∀ c ∈ cs, pyStrip c ≠ "") →
      diffTriples hs (List.replicate cs.length "") cs =
        (hs.zip cs).map (fun x => (x.1, "", x.2)) := by
  intro hs
  induction hs with
  | nil =>
    intro cs hlen _
    have : cs = [] := List.length_eq_zero.mp hlen.symm
    simp [this, diffTriples]
  | cons h hs ih =>
    intro cs hlen hne
    cases cs with
    | nil => simp at hlen
    | cons c cs =>
      simp only [List.length_cons, Nat.succ.injEq] at hlen
      have hc : pyStrip c ≠ "" := hne c (List.mem_cons_self c cs)
      have hstrip : pyStrip "" = "" := rfl
      have : ¬(pyStrip "" = pyStrip c) := by
        rw [hstrip]; exact fun hh => hc hh.symm
      simp [List.replicate, diffTriples, this,
        ih cs hlen (fun x hx => hne x (List.mem_cons_of_mem c hx))]

theorem row1Vals_pair (r0 : List String) (lab : String) (pv : List String) :
    row1Vals [r0, lab :: pv] = pv := by
  cases pv with
  | nil => rfl
  | cons x xs => simp [row1Vals]

theorem headerVals_cons (lh : String) (ph : List String) (rest : Snap) (hph : ph ≠ []) :
    headerVals ((lh :: ph) :: rest) = ph := by
  cases ph with
  | nil => exact absurd rfl hph
  | cons x xs => simp [headerVals]

theorem alignLists_pad (ph pv cv : List String) (hlen : ph.length = cv.length)
    (hlt : pv.length < cv.length) :
    alignLists ph pv cv = (ph, pv ++ List.replicate (cv.length - pv.length) "", cv) := by
  have hne : ¬(ph.length ≠ cv.length) := by simp [hlen]
  simp only [alignLists, hne, if_false, ite_false]
  have hpad : pv.length < cv.length := hlt
  simp [hpad, Nat.not_lt.mpr (Nat.le_of_lt hpad)]

theorem alignLists_same_vals (ph cv : List String) :
    (alignLists ph cv cv).2.1 = (alignLists ph cv cv).2.2 := by
  by_cases hne : ph.length = cv.length
  · simp [alignLists, hne]
  · have hn : min ph.length cv.length ≤ cv.length := Nat.min_le_right _ _
    by_cases hlt : min ph.length cv.length < cv.length
    · simp [alignLists, hne, hlt]
    · have heq : min ph.length cv.length = cv.length := Nat.le_antisymm hn (Nat.not_lt.mp hlt)
      simp [alignLists, hne, hlt, heq]

theorem parts_body_self (d : Snap) : parts_body d d = [] := by
  show diffTriples (alignLists (headerVals d) (row1Vals d) (row1Vals d)).1
    (alignLists (headerVals d) (row1Vals d) (row1Vals d)).2.1
    (alignLists (headerVals d) (row1Vals d) (row1Vals d)).2.2 = []
  rw [alignLists_same_vals]
  exact diffTriples_self _ _

theorem detect_parts_changes_of_ne_nil (previous current : Snap) (h : previous ≠ []) :
    detect_parts_changes previous current = parts_body previous current := by
  simp [detect_parts_changes, detect_parts_changes_run, List.isEmpty_iff, h]

theorem load_previous_state_tabular_two (f : Option Snap) (d : Snap)
    (h : load_previous_state_tabular f = some d) : 2 ≤ d.length := by
  cases f with
  | none => simp [load_previous_state_tabular] at h
  | some e =>
    by_cases he : e.length < 2
    · simp [load_previous_state_tabular, he] at h
    · simp only [load_previous_state_tabular, he, if_false, ite_false,
        Option.some.injEq] at h
      subst h
      exact Nat.not_lt.mp he

theorem save_current_state_tabular_of_two (d : Snap) (f : Option Snap) (h : 2 ≤ d.length) :
    save_current_state_tabular d f = some d := by
  simp [save_current_state_tabular, Nat.not_lt.mpr h]

theorem save_current_state_diff_blobOfOpt {α : Type} (o : Option α) (f : Option (PyBlob α)) :
    save_current_state_diff (blobOfOpt o) f = some (blobOfOpt o) := by
  cases o <;> rfl

theorem detect_stock_changes_unfold (pd cd : Snap) (f : Option Snap)
    (hp : 2 ≤ pd.length) (hc : 2 ≤ cd.length) :
    detect_stock_changes pd cd f =
      if (pd.getD 1 []).length ≠ (cd.getD 1 []).length ∨
          (cd.getD 0 []).length ≠ (cd.getD 1 []).length then
        (.ok [], save_current_state_tabular cd f)
      else
        (.ok (diffTriples (cd.getD 0 []) (pd.getD 1 []) (cd.getD 1 [])), f) := by
  have h1 : pd.isEmpty = false := by
    cases pd with
    | nil => simp at hp
    | cons x xs => rfl
  have hlen : ¬(pd.length < 2 ∨ cd.length < 2) := by
    push_neg
    exact ⟨hp, hc⟩
  show (if pd.isEmpty then ((.ok [] : Except String (List CellChange)), f)
    else if pd.length < 2 ∨ cd.length < 2 then (.error "APIError", f)
    else if (pd.getD 1 []).length ≠ (cd.getD 1 []).length ∨
        (cd.getD 0 []).length ≠ (cd.getD 1 []).length then
      (.ok [], save_current_state_tabular cd f)
    else (.ok (diffTriples (cd.getD 0 []) (pd.getD 1 []) (cd.getD 1 [])), f)) = _
  rw [h1, if_neg Bool.false_ne_true, if_neg hlen]

theorem detect_stock_changes_ok (pd cd : Snap) (f : Option Snap)
    (hp : 2 ≤ pd.length) (hc : 2 ≤ cd.length) :
    ∃ cs f2, detect_stock_changes pd cd f = (.ok cs, f2) := by
  rw [detect_stock_changes_unfold pd cd f hp hc]
  by_cases hmm : (pd.getD 1 []).length ≠ (cd.getD 1 []).length ∨
      (cd.getD 0 []).length ≠ (cd.getD 1 []).length
  · rw [if_pos hmm]
    exact ⟨[], save_current_state_tabular cd f, rfl⟩
  · rw [if_neg hmm]
    exact ⟨diffTriples (cd.getD 0 []) (pd.getD 1 []) (cd.getD 1 []), f, rfl⟩

theorem filter_ne_comma_of_all_digits (l : List Char) (h : l.all Char.isDigit = true) :
    l.filter (fun c => c != ',') = l := by
  induction l with
  | nil => rfl
  | cons c r ih =>
    simp only [List.all_cons, Bool.and_eq_true] at h
    have hc : (c != ',') = true := by
      by_cases hcc : c = ','
      · subst hcc; exact absurd h.1 (by decide)
      · simp [bne, beq_eq_false_iff_ne.mpr hcc]
    simp [List.filter, hc, ih h.2]

theorem spanDigits_all_digits (l : List Char) (h : l.all Char.isDigit = true) :
    spanDigits l = (l, []) := by
  induction l with
  | nil => rfl
  | cons c r ih =>
    simp only [List.all_cons, Bool.and_eq_true] at h
    simp [spanDigits, h.1, ih h.2]

theorem spanDigits_comma (l : List Char) (hall : ∀ c ∈ l, c.isDigit = true ∨ c = ',')
    (hmem : ',' ∈ l) : ∃ r, (spanDigits l).2 = ',' :: r := by
  induction l with
  | nil => simp at hmem
  | cons c r ih =>
    by_cases hc : c.isDigit = true
    · have hcc : c ≠ ',' := by
        intro hh; subst hh; exact absurd hc (by decide)
      have hmem' : ',' ∈ r := by
        rcases List.mem_cons.mp hmem with h1 | h1
        · exact absurd h1.symm hcc
        · exact h1
      obtain ⟨rr, hrr⟩ := ih (fun x hx => hall x (List.mem_cons_of_mem c hx)) hmem'
      exact ⟨rr, by simp [spanDigits, hc, hrr]⟩
    · have hcc : c = ',' := by
        rcases hall c (List.mem_cons_self c r) with h1 | h1
        · exact absurd h1 hc
        · exact h1
      exact ⟨r, by simp [spanDigits, hc, hcc]⟩

theorem ne_dash_of_digit {c : Char} (h : c.isDigit = true) : c ≠ '-' := by
  intro hh; subst hh; exact absurd h (by decide)

theorem ne_plus_of_digit {c : Char} (h : c.isDigit = true) : c ≠ '+' := by
  intro hh; subst hh; exact absurd h (by decide)

theorem parseSigned_digits (l : List Char) (hne : l ≠ []) (h : l.all Char.isDigit = true) :
    parseSigned l = some (digitsVal l : ℚ) := by
  cases l with
  | nil => exact absurd rfl hne
  | cons c r =>
    have hc : c.isDigit = true := by
      simp only [List.all_cons, Bool.and_eq_true] at h
      exact h.1
    simp [parseSigned, ne_dash_of_digit hc, ne_plus_of_digit hc, parseUnsigned,
      spanDigits_all_digits _ h]

theorem parseSigned_comma (l : List Char) (hall : ∀ c ∈ l, c.isDigit = true ∨ c = ',')
    (hmem : ',' ∈ l) : parseSigned l = none := by
  cases l with
  | nil => rfl
  | cons c r =>
    have hcd : c ≠ '-' ∧ c ≠ '+' := by
      rcases hall c (List.mem_cons_self c r) with h1 | h1
      · exact ⟨ne_dash_of_digit h1, ne_plus_of_digit h1⟩
      · subst h1; exact ⟨by decide, by decide⟩
    obtain ⟨rr, hrr⟩ := spanDigits_comma (c :: r) hall hmem
    simp [parseSigned, hcd.1, hcd.2, parseUnsigned, hrr]

theorem truncRat_natCast (n : ℕ) : truncRat (n : ℚ) = (n : ℤ) := by
  simp [truncRat, Nat.cast_nonneg, Int.floor_natCast]

theorem pieceContrib_of_digits (v : String) (h : strictDigits v = true) :
    pieceContrib v = digitsVal (pyStrip v).data := by
  rw [strictDigits, Bool.and_eq_true] at h
  obtain ⟨hne, hdig⟩ := h
  have hne' : (pyStrip v).data ≠ [] := by
    simpa [List.isEmpty_iff] using hne
  have hgate : digitGate v = true := by
    show pyIsdigit (stripCommas (pyStrip v)) = true
    have hdata : (stripCommas (pyStrip v)).data = (pyStrip v).data := by
      show (pyStrip v).data.filter (fun c => c != ',') = (pyStrip v).data
      exact filter_ne_comma_of_all_digits _ hdig
    simp [pyIsdigit, hdata, hne, hdig]
  have hparse : parseFloat? v = some (digitsVal (pyStrip v).data : ℚ) :=
    parseSigned_digits _ hne' hdig
  simp [pieceContrib, hgate, hparse, truncRat_natCast]

theorem pieceContrib_of_not_digits (v : String) (h : strictDigits v = false) :
    pieceContrib v = 0 := by
  by_cases hg : digitGate v = true
  · have hfe : ((!(stripCommas (pyStrip v)).data.isEmpty) = true) ∧
        (stripCommas (pyStrip v)).data.all Char.isDigit = true := by
      have := hg
      rw [digitGate, pyIsdigit, Bool.and_eq_true] at this
      exact this
    rw [show (stripCommas (pyStrip v)).data = (pyStrip v).data.filter (fun c => c != ',')
      from rfl] at hfe
    have htne : (pyStrip v).data ≠ [] := by
      intro hh
      rw [hh] at hfe
      simp at hfe
    have hallc : ∀ c ∈ (pyStrip v).data, c.isDigit = true ∨ c = ',' := by
      intro c hcmem
      by_cases hcc : c = ','
      · exact Or.inr hcc
      · refine Or.inl ?_
        have hcf : c ∈ (pyStrip v).data.filter (fun x => x != ',') := by
          rw [List.mem_filter]
          exact ⟨hcmem, by simp [bne, beq_eq_false_iff_ne.mpr hcc]⟩
        exact List.all_eq_true.mp hfe.2 c hcf
    have hniso : ((!(pyStrip v).data.isEmpty) = true) := by
      simp [htne]
    have hnall : (pyStrip v).data.all Char.isDigit = false := by
      rw [strictDigits] at h
      cases hall : (pyStrip v).data.all Char.isDigit
      · rfl
      · rw [hall, hniso] at h
        simp at h
    obtain ⟨c, hcmem, hcnd⟩ := List.all_eq_false.mp hnall
    have hcc : c = ',' := by
      rcases hallc c hcmem with h1 | h1
      · exact absurd h1 (by simpa using hcnd)
      · exact h1
    have hmem' : ',' ∈ (pyStrip v).data := hcc ▸ hcmem
    have hparse : parseFloat? v = none := parseSigned_comma _ hallc hmem'
    simp [pieceContrib, hg, hparse]
  · have hg' : digitGate v = false := by
      cases hgg : digitGate v
      · rfl
      · exact absurd hgg hg
    simp [pieceContrib, hg']

theorem totalPiecesGo_eq (headers : List String) :
    ∀ values : List String, headers.length ≤ values.length →
      totalPiecesGo headers values =
        some ((((headers.zip values).filter
            (fun hv => !excludedHeader hv.1 && strictDigits hv.2)).map
          (fun hv => digitsVal (pyStrip hv.2).data)).sum) := by
  induction headers with
  | nil => intro vs _; simp [totalPiecesGo]
  | cons h hs ih =>
    intro vs hlen
    cases vs with
    | nil => simp at hlen
    | cons v vs' =>
      simp only [List.length_cons, Nat.succ_le_succ_iff] at hlen
      by_cases hex : excludedHeader h = true
      · rw [show totalPiecesGo (h :: hs) (v :: vs') = totalPiecesGo hs vs' by
          simp [totalPiecesGo, hex]]
        rw [ih vs' hlen]
        simp [hex]
      · have hex' : excludedHeader h = false := by
          cases hh : excludedHeader h
          · rfl
          · exact absurd hh hex
        rw [show totalPiecesGo (h :: hs) (v :: vs') =
            match totalPiecesGo hs vs' with
            | some t => some (pieceContrib v + t)
            | none => none by simp [totalPiecesGo, hex']]
        rw [ih vs' hlen]
        by_cases hsd : strictDigits v = true
        · rw [pieceContrib_of_digits v hsd]
          simp [hex', hsd]
        · have hsd' : strictDigits v = false := by
            cases hh : strictDigits v
            · rfl
            · exact absurd hh hsd
          rw [pieceContrib_of_not_digits v hsd']
          simp [hex', hsd']

theorem charListLt_irrefl (l : List Char) : charListLt l l = false := by
  induction l with
  | nil => rfl
  | cons c r ih => simp [charListLt, ih]

theorem charListLt_trans :
    ∀ a b c : List Char, charListLt a b = true → charListLt b c = true →
      charListLt a c = true := by
  intro a
  induction a with
  | nil =>
    intro b c hab hbc
    cases b with
    | nil => simp [charListLt] at hab
    | cons y bs =>
      cases c with
      | nil => simp [charListLt] at hbc
      | cons z cs => rfl
  | cons x as ih =>
    intro b c hab hbc
    cases b with
    | nil => simp [charListLt] at hab
    | cons y bs =>
      cases c with
      | nil => simp [charListLt] at hbc
      | cons z cs =>
        simp only [charListLt] at hab hbc ⊢
        by_cases h1 : x.toNat < y.toNat
        · by_cases h2 : y.toNat < z.toNat
          · simp [show x.toNat < z.toNat by omega]
          · by_cases h3 : z.toNat < y.toNat
            · simp [h2, h3] at hbc
            · simp [show x.toNat < z.toNat by omega]
        · by_cases h1' : y.toNat < x.toNat
          · simp [h1, h1'] at hab
          · simp only [h1, h1', if_false, ite_false] at hab
            by_cases h2 : y.toNat < z.toNat
            · simp [show x.toNat < z.toNat by omega]
            · by_cases h3 : z.toNat < y.toNat
              · simp [h2, h3] at hbc
              · simp only [h2, h3, if_false, ite_false] at hbc
                have hx : ¬x.toNat < z.toNat := by omega
                have hz : ¬z.toNat < x.toNat := by omega
                simp [hx, hz, ih bs cs hab hbc]

theorem charListLt_of_lt_of_not_gt :
    ∀ a b c : List Char, charListLt a b = true → charListLt c b = false →
      charListLt a c = true := by
  intro a
  induction a with
  | nil =>
    intro b c hab hcb
    cases b with
    | nil => simp [charListLt] at hab
    | cons y bs =>
      cases c with
      | nil => simp [charListLt] at hcb
      | cons z cs => rfl
  | cons x as ih =>
    intro b c hab hcb
    cases b with
    | nil => simp [charListLt] at hab
    | cons y bs =>
      cases c with
      | nil => simp [charListLt] at hcb
      | cons z cs =>
        simp only [charListLt] at hab hcb ⊢
        by_cases hzy : z.toNat < y.toNat
        · simp [hzy] at hcb
        · by_cases h1 : x.toNat < y.toNat
          · by_cases hyz : y.toNat < z.toNat
            · simp [show x.toNat < z.toNat by omega]
            · simp [show x.toNat < z.toNat by omega]
          · by_cases h1' : y.toNat < x.toNat
            · simp [h1, h1'] at hab
            · simp only [h1, h1', if_false, ite_false] at hab
              by_cases hyz : y.toNat < z.toNat
              · simp [show x.toNat < z.toNat by omega]
              · simp only [hzy, hyz, if_false, ite_false] at hcb
                have hx : ¬x.toNat < z.toNat := by omega
                have hz : ¬z.toNat < x.toNat := by omega
                simp [hx, hz, ih bs cs hab hcb]

theorem pyStrLt_irrefl (s : String) : pyStrLt s s = false :=
  charListLt_irrefl s.data

theorem pyStrLt_trans {a b c : String} (h1 : pyStrLt a b = true) (h2 : pyStrLt b c = true) :
    pyStrLt a c = true :=
  charListLt_trans _ _ _ h1 h2

theorem pyStrLt_of_lt_of_not_gt {a b c : String} (h1 : pyStrLt a b = true)
    (h2 : pyStrLt c b = false) : pyStrLt a c = true :=
  charListLt_of_lt_of_not_gt _ _ _ h1 h2

theorem argmax_foldl_spec (key : List String → String) :
    ∀ (xs : List (List String)) (x : List String),
      (xs.foldl (fun best y => if pyStrLt (key best) (key y) then y else best) x) ∈ x :: xs ∧
      ∀ z ∈ x :: xs,
        pyStrLt
          (key (xs.foldl (fun best y => if pyStrLt (key best) (key y) then y else best) x))
          (key z) = false := by
  intro xs
  induction xs with
  | nil =>
    intro x
    refine ⟨List.mem_cons_self x [], ?_⟩
    intro z hz
    rcases List.mem_cons.mp hz with rfl | hz'
    · exact pyStrLt_irrefl (key z)
    · simp at hz'
  | cons y ys ih =>
    intro x
    simp only [List.foldl_cons]
    obtain ⟨hmem, hmax⟩ := ih (if pyStrLt (key x) (key y) then y else x)
    constructor
    · rcases List.mem_cons.mp hmem with heq | hmem'
      · rw [heq]
        by_cases hxy : pyStrLt (key x) (key y) = true
        · rw [if_pos hxy]
          exact List.mem_cons_of_mem x (List.mem_cons_self y ys)
        · rw [if_neg hxy]
          exact List.mem_cons_self x (y :: ys)
      · exact List.mem_cons_of_mem x (List.mem_cons_of_mem y hmem')
    · intro z hz
      rcases List.mem_cons.mp hz with heq | hz'
      · rw [heq]
        by_cases hxy : pyStrLt (key x) (key y) = true
        · have hhead := hmax (if pyStrLt (key x) (key y) then y else x)
            (List.mem_cons_self _ ys)
          rw [if_pos hxy] at hhead ⊢
          cases hcontra : pyStrLt
              (key (List.foldl (fun best y => if pyStrLt (key best) (key y) then y else best)
                y ys)) (key x)
          · rfl
          · have h2 := pyStrLt_trans hcontra hxy
            simp [hhead] at h2
        · have hhead := hmax (if pyStrLt (key x) (key y) then y else x)
            (List.mem_cons_self _ ys)
          rw [if_neg hxy] at hhead ⊢
          exact hhead
      · rcases List.mem_cons.mp hz' with heq | hz''
        · rw [heq]
          by_cases hxy : pyStrLt (key x) (key y) = true
          · have hhead := hmax (if pyStrLt (key x) (key y) then y else x)
              (List.mem_cons_self _ ys)
            rw [if_pos hxy] at hhead ⊢
            exact hhead
          · have hhead := hmax (if pyStrLt (key x) (key y) then y else x)
              (List.mem_cons_self _ ys)
            have hxy' : pyStrLt (key x) (key y) = false := by
              cases hh : pyStrLt (key x) (key y)
              · rfl
              · exact absurd hh hxy
            rw [if_neg hxy] at hhead ⊢
            cases hcontra : pyStrLt
                (key (List.foldl (fun best y => if pyStrLt (key best) (key y) then y else best)
                  x ys)) (key y)
            · rfl
            · have h2 := pyStrLt_of_lt_of_not_gt hcontra hxy'
              simp [hhead] at h2
        · exact hmax z (List.mem_cons_of_mem _ hz'')

theorem argmaxKey_spec (key : List String → String) (xs : List (List String)) (h : xs ≠ []) :
    ∃ sel, argmaxKey key xs = some sel ∧ sel ∈ xs ∧
      ∀ z ∈ xs, pyStrLt (key sel) (key z) = false := by
  cases xs with
  | nil => exact absurd rfl h
  | cons x t =>
    obtain ⟨hmem, hmax⟩ := argmax_foldl_spec key t x
    exact ⟨_, rfl, hmem, hmax⟩

/-! ## Claim theorems -/

/-- C1: For every run in which the fetch operations succeed (both fetched
snapshots have the 2 rows `get_sheet_data` guarantees), all four persisted
state blobs — stock snapshot, parts snapshot, whole-chicken difference and
gizzard difference — are overwritten with the current run's values at the end
of the run, regardless of whether the alert send succeeded or failed and
regardless of whether the parts comparison body succeeded or raised. -/
theorem main_run_overwrites_all_state (stock parts : Snap) (inv giz : Option ℚ)
    (sendOk : Bool) (partsExc : Option String) (s : Store)
    (hs : 2 ≤ stock.length) (hp : 2 ≤ parts.length) :
    (main_run stock parts inv giz sendOk partsExc s).1 =
      { stockFile := some stock
        partsFile := some parts
        chickenFile := some (blobOfOpt (calculate_current_differences stock inv giz).1)
        gizzardFile := some (blobOfOpt (calculate_current_differences stock inv giz).2) } := by
  cases hload : load_previous_state_tabular s.stockFile with
  | none =>
    simp only [main_run, hload]
    simp [save_current_state_tabular_of_two _ _ hs, save_current_state_tabular_of_two _ _ hp,
      save_current_state_diff_blobOfOpt]
  | some pd =>
    have hpd := load_previous_state_tabular_two _ _ hload
    obtain ⟨cs, f2, hdet⟩ := detect_stock_changes_ok pd stock s.stockFile hpd hs
    simp only [main_run, hload, hdet]
    simp [save_current_state_tabular_of_two _ _ hs, save_current_state_tabular_of_two _ _ hp,
      save_current_state_diff_blobOfOpt]

/-- C1 witness: a concrete run with a failing parts comparison and a failing
send still ends with all four files holding the current values. -/
theorem main_run_overwrites_all_state_witness :
    (main_run [["h"], ["1"]] [["Parts Type", "A"], ["Balance", "2"]] none none false
        (some "boom") ⟨none, none, none, none⟩).1 =
      { stockFile := some [["h"], ["1"]]
        partsFile := some [["Parts Type", "A"], ["Balance", "2"]]
        chickenFile := some (blobOfOpt
          (calculate_current_differences [["h"], ["1"]] none none).1)
        gizzardFile := some (blobOfOpt
          (calculate_current_differences [["h"], ["1"]] none none).2) } :=
  main_run_overwrites_all_state _ _ _ _ _ _ _ (by decide) (by decide)

/-- C2 counterexample: the value `"1,234"` is an integer-looking string of
digits and thousands separators in a non-excluded column, so the claim says
it is summed (total 1234); but `float("1,234")` raises `ValueError`, the
inner handler swallows it, and the code's total is 0. -/
theorem total_pieces_separator_counterexample :
    excludedHeader "breast" = false ∧
    digitGate "1,234" = true ∧
    calculate_total_pieces [["breast"], ["1,234"]] = some 0 ∧
    calculate_total_pieces [["breast"], ["1,234"]] ≠ some 1234 := by
  refine ⟨by decide, by decide, by decide, by decide⟩

/-- C2 amended: for every stock snapshot whose value row is at least as long
as its header row, the total-pieces calculation returns the sum over exactly
those columns whose header is not (case-insensitively) `specification`,
`gizzard` or `total` and whose value trims to a non-empty string of digits
only; values containing a thousands separator or a decimal point contribute
nothing to the sum. -/
theorem total_pieces_digits_only_sum (headers values : List String) (rest : Snap)
    (hlen : headers.length ≤ values.length) :
    calculate_total_pieces (headers :: values :: rest) =
      some ((((headers.zip values).filter
          (fun hv => !excludedHeader hv.1 && strictDigits hv.2)).map
        (fun hv => digitsVal (pyStrip hv.2).data)).sum) := by
  show (if (headers :: values :: rest).length < 2 then none
    else totalPiecesGo ((headers :: values :: rest).getD 0 [])
      ((headers :: values :: rest).getD 1 [])) = _
  rw [if_neg (by simp)]
  exact totalPiecesGo_eq headers values hlen

/-- C2 witness: a concrete snapshot with an excluded column, a plain digit
value and a separator value. -/
theorem total_pieces_digits_only_sum_witness :
    calculate_total_pieces [["specification", "breast", "wing"], ["x", " 12 ", "3,4"]] =
      some (((([("specification" : String), "breast", "wing"].zip
          [("x" : String), " 12 ", "3,4"]).filter
        (fun hv => !excludedHeader hv.1 && strictDigits hv.2)).map
        (fun hv => digitsVal (pyStrip hv.2).data)).sum) :=
  total_pieces_digits_only_sum _ _ _ (by decide)

/-- C3: for every pair of stock snapshots (previous non-empty with its 2
loaded rows, current with its 2 fetched rows) whose previous value row
length, current value row length and current header length are not all
equal, the positional comparator returns an empty change list and saves the
current snapshot as the new stock baseline. -/
theorem stock_length_mismatch_resets_baseline (prev curr : Snap) (f : Option Snap)
    (hp : 2 ≤ prev.length) (hc : 2 ≤ curr.length)
    (hmm : ¬((prev.getD 1 []).length = (curr.getD 1 []).length ∧
        (curr.getD 0 []).length = (curr.getD 1 []).length)) :
    detect_stock_changes prev curr f = (.ok [], some curr) := by
  rw [detect_stock_changes_unfold prev curr f hp hc]
  have hmm' : (prev.getD 1 []).length ≠ (curr.getD 1 []).length ∨
      (curr.getD 0 []).length ≠ (curr.getD 1 []).length := by tauto
  rw [if_pos hmm', save_current_state_tabular_of_two _ _ hc]

/-- C3 witness: previous value row has 2 cells, current has 1. -/
theorem stock_length_mismatch_resets_baseline_witness :
    detect_stock_changes [["a"], ["1", "2"]] [["a"], ["1"]] none =
      (.ok [], some [["a"], ["1"]]) :=
  stock_length_mismatch_resets_baseline _ _ _ (by decide) (by decide) (by decide)

/-- C4 counterexample: previous values `["", "x"]` are one shorter than the
current headers `["A", "B", "C"]` with values `["2", "x", "9"]` (`k = 1`,
trailing value `"9"` non-empty), yet the comparator returns two changes —
the differing shared-prefix position also yields a change with an empty old
value — so neither the change count nor the count of empty-old changes
equals `k`. -/
theorem parts_padding_counterexample :
    (row1Vals [["Parts Type", "A", "B"], ["Balance", "", "x"]]).length + 1 =
      (headerVals [["Parts Type", "A", "B", "C"], ["Balance", "2", "x", "9"]]).length ∧
    (headerVals [["Parts Type", "A", "B", "C"], ["Balance", "2", "x", "9"]]).length =
      (row1Vals [["Parts Type", "A", "B", "C"], ["Balance", "2", "x", "9"]]).length ∧
    (∀ c ∈ (row1Vals [["Parts Type", "A", "B", "C"], ["Balance", "2", "x", "9"]]).drop
        (row1Vals [["Parts Type", "A", "B"], ["Balance", "", "x"]]).length,
      pyStrip c ≠ "") ∧
    detect_parts_changes [["Parts Type", "A", "B"], ["Balance", "", "x"]]
      [["Parts Type", "A", "B", "C"], ["Balance", "2", "x", "9"]] =
      [("A", "", "2"), ("C", "", "9")] ∧
    (detect_parts_changes [["Parts Type", "A", "B"], ["Balance", "", "x"]]
      [["Parts Type", "A", "B", "C"], ["Balance", "2", "x", "9"]]).length ≠ 1 ∧
    ((detect_parts_changes [["Parts Type", "A", "B"], ["Balance", "", "x"]]
      [["Parts Type", "A", "B", "C"], ["Balance", "2", "x", "9"]]).filter
        (fun c => c.2.1 == "")).length ≠ 1 := by
  refine ⟨by decide, by decide, by decide, by decide, by decide, by decide⟩

/-- C4 amended: for every pair of parts snapshots where the previous value
row (after dropping the label column) is shorter than the current header
list by `k`, the current header and value lists have equal length, every
shared-prefix position carries equal values after trimming, and the `k`
trailing current values are non-empty after trimming, the named comparator
pads the previous row with empty strings and returns exactly the `k` changes
whose old value is the empty string, one per newly-appearing trailing
column. -/
theorem parts_new_trailing_columns (r0 : List String) (lp lh lc : String)
    (pv cv ph : List String) (k : ℕ) (hk : 0 < k)
    (hph : ph.length = cv.length)
    (hlen : pv.length + k = cv.length)
    (hpre : pv.map pyStrip = (cv.take pv.length).map pyStrip)
    (htrail : ∀ c ∈ cv.drop pv.length, pyStrip c ≠ "") :
    detect_parts_changes [r0, lp :: pv] [lh :: ph, lc :: cv] =
      ((ph.drop pv.length).zip (cv.drop pv.length)).map (fun x => (x.1, "", x.2)) := by
  have hphne : ph ≠ [] := by
    intro hh
    rw [hh] at hph
    simp only [List.length_nil] at hph
    omega
  rw [detect_parts_changes_of_ne_nil _ _ (by simp)]
  show diffTriples
    (alignLists (headerVals [lh :: ph, lc :: cv]) (row1Vals [r0, lp :: pv])
      (row1Vals [lh :: ph, lc :: cv])).1
    (alignLists (headerVals [lh :: ph, lc :: cv]) (row1Vals [r0, lp :: pv])
      (row1Vals [lh :: ph, lc :: cv])).2.1
    (alignLists (headerVals [lh :: ph, lc :: cv]) (row1Vals [r0, lp :: pv])
      (row1Vals [lh :: ph, lc :: cv])).2.2 = _
  rw [headerVals_cons lh ph _ hphne, row1Vals_pair r0 lp pv, row1Vals_pair (lh :: ph) lc cv]
  rw [alignLists_pad ph pv cv hph (by omega)]
  have hkk : cv.length - pv.length = k := by omega
  rw [hkk]
  have hstep : diffTriples ph (pv ++ List.replicate k "") cv =
      diffTriples (ph.drop pv.length) (List.replicate k "") (cv.drop pv.length) := by
    conv_lhs => rw [show ph = ph.take pv.length ++ ph.drop pv.length from
        (List.take_append_drop _ _).symm,
      show cv = cv.take pv.length ++ cv.drop pv.length from (List.take_append_drop _ _).symm]
    exact diffTriples_append_of_strip_eq pv (cv.take pv.length) (ph.take pv.length) _ _ _
      (by rw [List.length_take]; omega) hpre
  rw [hstep]
  have hlen2 : (ph.drop pv.length).length = (cv.drop pv.length).length := by
    simp only [List.length_drop]
    omega
  have hrep : k = (cv.drop pv.length).length := by
    simp only [List.length_drop]
    omega
  rw [hrep]
  exact diffTriples_replicate_empty _ _ hlen2 htrail

/-- C4 witness: one new trailing column appearing with value `"5"`. -/
theorem parts_new_trailing_columns_witness :
    detect_parts_changes [["Parts Type", "A"], ["Balance", "1"]]
      [["Parts Type", "A", "B"], ["Balance", "1", "5"]] =
      (((["A", "B"] : List String).drop 1).zip ((["1", "5"] : List String).drop 1)).map
        (fun x => (x.1, "", x.2)) :=
  parts_new_trailing_columns ["Parts Type", "A"] "Balance" "Parts Type" "Balance"
    ["1"] ["1", "5"] ["A", "B"] 1 (by decide) (by decide) (by decide) (by decide) (by decide)

/-- C5: the tolerance comparator returns exactly one change labelled
`Gizzard Balance Difference` when `|p - c| ≥ 0.01`, zero changes when
`|p - c| < 0.01`, and zero changes when either the previous or the current
difference is absent. -/
theorem gizzard_tolerance_change :
    (∀ pv cv : ℚ, 1 / 100 ≤ |pv - cv| →
      detect_gizzard_difference_changes (some pv) (some cv) =
        [("Gizzard Balance Difference", pv, cv)]) ∧
    (∀ pv cv : ℚ, |pv - cv| < 1 / 100 →
      detect_gizzard_difference_changes (some pv) (some cv) = []) ∧
    (∀ c : Option ℚ, detect_gizzard_difference_changes none c = []) ∧
    (∀ p : Option ℚ, detect_gizzard_difference_changes p none = []) := by
  refine ⟨?_, ?_, ?_, ?_⟩
  · intro pv cv h
    show (if 1 / 100 ≤ |pv - cv| then [("Gizzard Balance Difference", pv, cv)] else []) = _
    rw [if_pos h]
  · intro pv cv h
    show (if 1 / 100 ≤ |pv - cv| then [("Gizzard Balance Difference", pv, cv)] else []) = _
    rw [if_neg (not_le.mpr h)]
  · intro c
    rfl
  · intro p
    cases p <;> rfl

/-- C5 witness: a difference of exactly 0.01 triggers one change, a
difference of 0.0099 triggers none, and absent sides trigger none. -/
theorem gizzard_tolerance_change_witness :
    detect_gizzard_difference_changes (some (1 / 100)) (some 0) =
      [("Gizzard Balance Difference", 1 / 100, 0)] ∧
    detect_gizzard_difference_changes (some (99 / 10000)) (some 0) = [] ∧
    detect_gizzard_difference_changes none (some 0) = [] ∧
    detect_gizzard_difference_changes (some 0) none = [] :=
  ⟨gizzard_tolerance_change.1 _ _
     (by rw [sub_zero, abs_of_nonneg (by norm_num : (0 : ℚ) ≤ 1 / 100)]),
   gizzard_tolerance_change.2.1 _ _
     (by rw [sub_zero, abs_of_nonneg (by norm_num : (0 : ℚ) ≤ 99 / 10000)]; norm_num),
   gizzard_tolerance_change.2.2.1 _,
   gizzard_tolerance_change.2.2.2 _⟩

/-- C6: when no reconciliation row's `year_month` equals the current month,
the balance is taken from a row whose `year_month` is lexicographically
greatest among all data rows (no row's key is strictly greater); in
particular with rows 2024-11, 2024-12, 2025-01 and current month 2025-02
the 2025-01 row's balance 7 is used. -/
theorem inventory_period_fallback_max :
    (∀ (hdr : List String) (rows : Snap) (cur : String) (bcol ycol : ℕ),
      listIndexOf "whole_chicken_quantity_stock_balance" hdr = some bcol →
      listIndexOf "year_month" hdr = some ycol →
      rows ≠ [] →
      (∀ r ∈ rows, ¬(ycol < r.length ∧ r.getD ycol "" = cur)) →
      ∃ sel ∈ rows, (∀ r ∈ rows, pyStrLt (keyOf ycol sel) (keyOf ycol r) = false) ∧
        get_inventory_balance_core (hdr :: rows) cur =
          (if bcol < sel.length then parseFloat? (sel.getD bcol "") else none)) ∧
    get_inventory_balance_core
      [["year_month", "whole_chicken_quantity_stock_balance"],
        ["2024-11", "5"], ["2024-12", "6"], ["2025-01", "7"]] "2025-02" = some 7 := by
  constructor
  · intro hdr rows cur bcol ycol hb hy hne hnomatch
    obtain ⟨sel, hsel, hmem, hmax⟩ := argmaxKey_spec (keyOf ycol) rows hne
    refine ⟨sel, hmem, hmax, ?_⟩
    have hlen : ¬((hdr :: rows).length < 2) := by
      cases rows with
      | nil => exact absurd rfl hne
      | cons a b => simp
    have hfind : rows.find?
        (fun row => decide (ycol < row.length) && (row.getD ycol "" == cur)) = none := by
      rw [List.find?_eq_none]
      intro r hr hcontra
      apply hnomatch r hr
      simpa using hcontra
    simp only [get_inventory_balance_core, List.getD_cons_zero, List.drop_succ_cons,
      List.drop_zero]
    rw [if_neg hlen]
    simp only [hb, hy, hfind, hsel]
  · decide

/-- C6 witness: the general fallback statement applied to the concrete
three-row table of the claim. -/
theorem inventory_period_fallback_max_witness :
    ∃ sel ∈ [(["2024-11", "5"] : List String), ["2024-12", "6"], ["2025-01", "7"]],
      (∀ r ∈ [(["2024-11", "5"] : List String), ["2024-12", "6"], ["2025-01", "7"]],
        pyStrLt (keyOf 0 sel) (keyOf 0 r) = false) ∧
      get_inventory_balance_core
        [["year_month", "whole_chicken_quantity_stock_balance"],
          ["2024-11", "5"], ["2024-12", "6"], ["2025-01", "7"]] "2025-02" =
        (if 1 < sel.length then parseFloat? (sel.getD 1 "") else none) :=
  inventory_period_fallback_max.1 ["year_month", "whole_chicken_quantity_stock_balance"]
    _ "2025-02" 1 0 (by decide) (by decide) (by decide) (by decide)

/-- C7: for every tabular snapshot whose header and value row have equal
lengths, comparing the snapshot against itself yields an empty change list
in both the positional (stock) and the named (parts) comparator. -/
theorem self_compare_yields_no_changes (d : Snap) (f : Option Snap)
    (h2 : 2 ≤ d.length)
    (hlen : (d.getD 0 []).length = (d.getD 1 []).length) :
    detect_stock_changes d d f = (.ok [], f) ∧ detect_parts_changes d d = [] := by
  constructor
  · rw [detect_stock_changes_unfold d d f h2 h2]
    have hmm : ¬((d.getD 1 []).length ≠ (d.getD 1 []).length ∨
        (d.getD 0 []).length ≠ (d.getD 1 []).length) := by
      push_neg
      exact ⟨rfl, hlen⟩
    rw [if_neg hmm, diffTriples_self]
  · rw [detect_parts_changes_of_ne_nil d d (by
      intro hh
      rw [hh] at h2
      simp at h2)]
    exact parts_body_self d

/-- C7 witness: a concrete 1-column snapshot compared with itself. -/
theorem self_compare_yields_no_changes_witness :
    detect_stock_changes [["a"], ["1"]] [["a"], ["1"]] none = (.ok [], none) ∧
    detect_parts_changes [["a"], ["1"]] [["a"], ["1"]] = [] :=
  self_compare_yields_no_changes [["a"], ["1"]] none (by decide) (by decide)

/-- C8: in the shared comparison core of both comparators, a change is
emitted at an aligned position if and only if the two string values differ
after trimming surrounding whitespace; in particular `"5"` and `"5.0"`
compare as different while `"5 "` and `"5"` compare as equal, end to end in
both `detect_stock_changes` and `detect_parts_changes`. -/
theorem comparison_rule_trim_equality :
    (∀ hs ps cs : List String,
      diffTriples hs ps cs =
        ((hs.zip (ps.zip cs)).filter (fun x => !(pyStrip x.2.1 == pyStrip x.2.2))).map
          (fun x => (x.1, x.2.1, x.2.2))) ∧
    diffTriples ["h"] ["5"] ["5.0"] = [("h", "5", "5.0")] ∧
    diffTriples ["h"] ["5 "] ["5"] = [] ∧
    detect_stock_changes [["h"], ["5"]] [["h"], ["5.0"]] none =
      (.ok [("h", "5", "5.0")], none) ∧
    detect_parts_changes [["x", "h"], ["B", "5 "]] [["x", "h"], ["B", "5"]] = [] :=
  ⟨diffTriples_eq_filter, by decide, by decide, rfl, by decide⟩

/-- C9: for every pair of parts snapshots with a non-empty previous snapshot
and a current snapshot of the fetched shape, an unexpected exception in the
comparison body is caught — the run returns an empty change list rather than
propagating, and the current parts snapshot is saved as the new parts
baseline. -/
theorem parts_exception_self_heals (previous current : Snap) (file : Option Snap)
    (e : String) (hne : previous ≠ []) (hc : 2 ≤ current.length) :
    detect_parts_changes_run previous current file (.error e) = ([], some current) := by
  have h1 : previous.isEmpty = false := by
    cases previous with
    | nil => exact absurd rfl hne
    | cons a b => rfl
  simp [detect_parts_changes_run, h1, save_current_state_tabular_of_two _ _ hc]

/-- C9 witness: a concrete exception outcome resets the parts baseline. -/
theorem parts_exception_self_heals_witness :
    detect_parts_changes_run [["a"], ["b"]] [["c"], ["d"]] none (.error "boom") =
      ([], some [["c"], ["d"]]) :=
  parts_exception_self_heals _ _ _ _ (by decide) (by decide)

/-- C10: the scalar state save accepts `None` as a valid value — the file is
overwritten with `None` rather than the write being skipped — and a
subsequent load of that file yields "no baseline", so one run with an
unavailable difference erases a previously persisted scalar baseline. -/
theorem scalar_save_accepts_none :
    (∀ f : Option (PyBlob ℚ), save_current_state_diff PyBlob.pyNone f = some PyBlob.pyNone) ∧
    (∀ f : Option (PyBlob ℚ),
      load_previous_state_diff (save_current_state_diff PyBlob.pyNone f) = none) ∧
    (∀ x : ℚ, load_previous_state_diff (some (PyBlob.val x)) = some x) ∧
    blobOfOpt (none : Option ℚ) = PyBlob.pyNone :=
  ⟨fun _ => rfl, fun _ => rfl, fun _ => rfl, rfl⟩

end Monitor
